import Mathlib

/-!
# Joy: a shallow embedding of the pipeline engine

This file embeds, in Lean, the data model and the operations of the Joy
data-transformation engine (lexer, expression compiler, stack-bytecode
evaluator, scalar and vectorized filter operators, projection, and the CSV
reader), and proves or refutes the specified properties about them.

Modelling conventions:
* C++ `int64_t` is modelled as `Int`.  The engine's arithmetic claims do not
  hinge on 64-bit wrap-around (signed overflow is undefined behaviour in the
  source), so the unbounded integers are used; `DIV` uses `Int.tdiv`, the
  truncating (toward-zero) division, exactly as C++ `/` on integers.
* C++ `double` is modelled as `Rat`.  Every property proved here compares the
  two execution paths performing the *same* floating-point comparisons on the
  *same* promoted operands, so the results are insensitive to the numeric
  model; exact rationals keep everything decidable.
* Fallible C++ code (`throw RuntimeError(msg)`) is modelled in `Except`.
  Popping an empty `std::vector` (`stack_.back()` on an empty stack) and
  `std::bad_variant_access` are undefined / non-`RuntimeError` failures in the
  source; they get their own distinguished error constructors so that the
  safety claims about them can be stated.
-/

deriving instance DecidableEq for Except

namespace Joy

/-- C++ `double`, modelled as exact rationals (see the file header). -/
abbrev F64 := Rat

/-- `std::string` ordering (`operator<`): byte-lexicographic.  Implemented
structurally over the character list so that it evaluates by kernel
reduction. -/
def charListLt : List Char → List Char → Bool
  | [], [] => false
  | [], _ :: _ => true
  | _ :: _, [] => false
  | a :: as, b :: bs => if a < b then true else if b < a then false else charListLt as bs

/-- `a < b` on strings. -/
def strLt (a b : String) : Bool := charListLt a.toList b.toList

/-- Runtime value (`struct Value`, vm.hpp): a tagged union over
`{monostate, int64_t, double, std::string, bool}`. -/
inductive Value where
  | null
  | int (v : Int)
  | double (v : F64)
  | str (s : String)
  | bool (b : Bool)
deriving DecidableEq

/-- `Value::is_null`. -/
def Value.isNull : Value → Bool
  | .null => true
  | _ => false

/-- Evaluation-time failure.  `runtime msg` models `throw RuntimeError(msg)`;
`underflow` models `stack_.back()` on an empty stack (undefined behaviour in
the C++ source); `badVariant` models `std::bad_variant_access` (a column whose
declared type disagrees with its storage variant). -/
inductive EvalErr where
  | underflow
  | badVariant
  | runtime (msg : String)
deriving DecidableEq

/-- `enum class ColumnType` (table.hpp). -/
inductive ColumnType where
  | int64
  | double
  | string
  | bool
deriving DecidableEq

/-- The column storage variant (table.hpp): exactly one of four vectors of
nullable elements. -/
inductive ColumnData where
  | int64s (xs : List (Option Int))
  | doubles (xs : List (Option F64))
  | strings (xs : List (Option String))
  | bools (xs : List (Option Bool))
deriving DecidableEq

/-- `Column::size`. -/
def ColumnData.size : ColumnData → Nat
  | .int64s xs => xs.length
  | .doubles xs => xs.length
  | .strings xs => xs.length
  | .bools xs => xs.length

/-- The `ColumnType` a storage variant corresponds to. -/
def ColumnData.typeTag : ColumnData → ColumnType
  | .int64s _ => .int64
  | .doubles _ => .double
  | .strings _ => .string
  | .bools _ => .bool

/-- `struct Column` (table.hpp). -/
structure Column where
  name : String
  type : ColumnType
  data : ColumnData
deriving DecidableEq

/-- `struct Table` (table.hpp). -/
structure Table where
  columns : List Column
  num_rows : Nat
deriving DecidableEq

/-- `Table::get_column`: the first column with the given name, if any. -/
def Table.get_column (t : Table) (name : String) : Option Column :=
  t.columns.find? (fun c => c.name = name)

/-- The cell of a column at a row, as a runtime value.  This is the value the
`LOAD_COLUMN` opcode pushes: null cells (and, in the model, out-of-range rows,
which are undefined behaviour in the source and never reached under the row
count invariant) give `Value.null`, other cells the typed value.  The C++
switches on the declared type after an `is_null` check; the storage variant
always matches the declared type in every construction site, so dispatching on
the variant is equivalent. -/
def ColumnData.cell : ColumnData → Nat → Value
  | .int64s xs, i =>
    match xs.getD i none with
    | none => .null
    | some v => .int v
  | .doubles xs, i =>
    match xs.getD i none with
    | none => .null
    | some v => .double v
  | .strings xs, i =>
    match xs.getD i none with
    | none => .null
    | some v => .str v
  | .bools xs, i =>
    match xs.getD i none with
    | none => .null
    | some v => .bool v

/-- The four arithmetic binary opcodes `ADD SUB MUL DIV`.  The C++ has one
switch case per opcode; the four bodies are identical except for the operator
applied and the error message, so they are factored over this tag. -/
inductive ArithOp where
  | add
  | sub
  | mul
  | div
deriving DecidableEq

/-- The integer operation of an arithmetic opcode (`a.as_int() + b.as_int()`
and so on; `DIV` is C++ `/`, truncation toward zero, and is only applied after
the zero-divisor check). -/
def intArith : ArithOp → Int → Int → Int
  | .add, a, b => a + b
  | .sub, a, b => a - b
  | .mul, a, b => a * b
  | .div, a, b => Int.tdiv a b

/-- The double operation of an arithmetic opcode. -/
def ratArith : ArithOp → F64 → F64 → F64
  | .add, a, b => a + b
  | .sub, a, b => a - b
  | .mul, a, b => a * b
  | .div, a, b => a / b

/-- The `Cannot ... non-numeric types` message of each arithmetic opcode. -/
def arithErrMsg : ArithOp → String
  | .add => "Cannot add non-numeric types"
  | .sub => "Cannot subtract non-numeric types"
  | .mul => "Cannot multiply non-numeric types"
  | .div => "Cannot divide non-numeric types"

/-- One arithmetic opcode applied to two popped values (vm.cpp, the
`ADD/SUB/MUL/DIV` cases): null propagates; two `Int64` compute in `Int64`
(with the divide-by-zero check for `DIV`); numeric mixes promote to double
(again with the zero check); anything else is a runtime error. -/
def applyArith (op : ArithOp) (a b : Value) : Except EvalErr Value :=
  if a.isNull || b.isNull then .ok .null
  else
    match a, b with
    | .int x, .int y =>
      if op = .div ∧ y = 0 then .error (.runtime "Division by zero")
      else .ok (.int (intArith op x y))
    | .int x, .double y =>
      if op = .div ∧ y = 0 then .error (.runtime "Division by zero")
      else .ok (.double (ratArith op (x : F64) y))
    | .double x, .int y =>
      if op = .div ∧ (y : F64) = 0 then .error (.runtime "Division by zero")
      else .ok (.double (ratArith op x (y : F64)))
    | .double x, .double y =>
      if op = .div ∧ y = 0 then .error (.runtime "Division by zero")
      else .ok (.double (ratArith op x y))
    | _, _ => .error (.runtime (arithErrMsg op))

/-- `NEG` (vm.cpp): null propagates, ints and doubles negate, the rest error. -/
def applyNeg : Value → Except EvalErr Value
  | .null => .ok .null
  | .int x => .ok (.int (-x))
  | .double x => .ok (.double (-x))
  | _ => .error (.runtime "Cannot negate non-numeric value")

/-- `NOT` (vm.cpp): null gives `false`, bools negate, ints test zero, the rest
error. -/
def applyNot : Value → Except EvalErr Value
  | .null => .ok (.bool false)
  | .bool b => .ok (.bool !b)
  | .int x => .ok (.bool (decide (x = 0)))
  | _ => .error (.runtime "Cannot apply NOT to non-boolean value")

/-- The six comparison opcodes `EQ NEQ LT GT LTE GTE` (also `enum VectorOp`,
which has exactly the same six comparisons). -/
inductive CmpOp where
  | eq
  | neq
  | lt
  | gt
  | lte
  | gte
deriving DecidableEq

/-- A comparison on `Int64` operands (`a.as_int() == b.as_int()` and so on). -/
def cmpInt : CmpOp → Int → Int → Bool
  | .eq, a, b => decide (a = b)
  | .neq, a, b => !decide (a = b)
  | .lt, a, b => decide (a < b)
  | .gt, a, b => decide (b < a)
  | .lte, a, b => decide (a ≤ b)
  | .gte, a, b => decide (b ≤ a)

/-- A comparison on promoted double operands. -/
def cmpRat : CmpOp → F64 → F64 → Bool
  | .eq, a, b => decide (a = b)
  | .neq, a, b => !decide (a = b)
  | .lt, a, b => decide (a < b)
  | .gt, a, b => decide (b < a)
  | .lte, a, b => decide (a ≤ b)
  | .gte, a, b => decide (b ≤ a)

/-- A comparison on strings: `std::string` relational operators are
lexicographic; `a <= b` is `!(b < a)` and `a >= b` is `!(a < b)`. -/
def cmpStr : CmpOp → String → String → Bool
  | .eq, a, b => decide (a = b)
  | .neq, a, b => !decide (a = b)
  | .lt, a, b => strLt a b
  | .gt, a, b => strLt b a
  | .lte, a, b => !strLt b a
  | .gte, a, b => !strLt a b

/-- One comparison opcode applied to two popped values (vm.cpp, the
`EQ/NEQ/LT/GT/LTE/GTE` cases): any null operand gives `Bool(false)`; two
ints compare exactly; numeric mixes promote to double; strings compare
lexicographically; bools compare only under `EQ`/`NEQ`; everything else is
the `Cannot compare incompatible types` error. -/
def applyCmp (op : CmpOp) (a b : Value) : Except EvalErr Value :=
  if a.isNull || b.isNull then .ok (.bool false)
  else
    match a, b with
    | .int x, .int y => .ok (.bool (cmpInt op x y))
    | .int x, .double y => .ok (.bool (cmpRat op (x : F64) y))
    | .double x, .int y => .ok (.bool (cmpRat op x (y : F64)))
    | .double x, .double y => .ok (.bool (cmpRat op x y))
    | .str x, .str y => .ok (.bool (cmpStr op x y))
    | .bool x, .bool y =>
      match op with
      | .eq => .ok (.bool (decide (x = y)))
      | .neq => .ok (.bool (!decide (x = y)))
      | _ => .error (.runtime "Cannot compare incompatible types")
    | _, _ => .error (.runtime "Cannot compare incompatible types")

/-- `TERNARY`'s condition coercion (vm.cpp): null is falsy, bools direct,
ints test non-zero, the rest error. -/
def ternCond : Value → Except EvalErr Bool
  | .null => .ok false
  | .bool b => .ok b
  | .int i => .ok (decide (i ≠ 0))
  | _ => .error (.runtime "Ternary condition must be boolean or numeric")

/-- A bytecode instruction (`IRExpr::Instruction`).  The C++ pairs an opcode
with a variant operand and reads the operand back with `std::get` of the type
the compiler stored; the model folds the operand into the constructor. -/
inductive Instr where
  | push_int (v : Int)
  | push_double (v : F64)
  | push_string (s : String)
  | push_bool (b : Bool)
  | load_column (name : String)
  | arith (op : ArithOp)
  | neg
  | cmp (op : CmpOp)
  | lnot
  | ternary
deriving DecidableEq

/-- `IRExpr`: an ordered sequence of instructions. -/
abbrev IRExpr := List Instr

/-- The `LOAD_COLUMN` opcode (vm.cpp): locate the column by name, error if
absent, else push the cell (null or typed value) at the current row. -/
def loadColumn (t : Table) (row : Nat) (name : String) : Except EvalErr Value :=
  match t.get_column name with
  | none => .error (.runtime ("Column not found: " ++ name))
  | some c => .ok (c.data.cell row)

/-- One step of the fetch-decode-execute loop of `VM::eval_expr`: execute one
instruction against the stack (head = top of stack).  Binary opcodes pop the
right operand first, then the left. -/
def step (t : Table) (row : Nat) (st : List Value) : Instr → Except EvalErr (List Value)
  | .push_int v => .ok (.int v :: st)
  | .push_double v => .ok (.double v :: st)
  | .push_string s => .ok (.str s :: st)
  | .push_bool b => .ok (.bool b :: st)
  | .load_column n =>
    match loadColumn t row n with
    | .error e => .error e
    | .ok v => .ok (v :: st)
  | .arith op =>
    match st with
    | b :: a :: rest =>
      match applyArith op a b with
      | .error e => .error e
      | .ok v => .ok (v :: rest)
    | _ => .error .underflow
  | .neg =>
    match st with
    | a :: rest =>
      match applyNeg a with
      | .error e => .error e
      | .ok v => .ok (v :: rest)
    | _ => .error .underflow
  | .cmp op =>
    match st with
    | b :: a :: rest =>
      match applyCmp op a b with
      | .error e => .error e
      | .ok v => .ok (v :: rest)
    | _ => .error .underflow
  | .lnot =>
    match st with
    | a :: rest =>
      match applyNot a with
      | .error e => .error e
      | .ok v => .ok (v :: rest)
    | _ => .error .underflow
  | .ternary =>
    match st with
    | fv :: tv :: cond :: rest =>
      match ternCond cond with
      | .error e => .error e
      | .ok b => .ok ((if b then tv else fv) :: rest)
    | _ => .error .underflow

/-- Execute an instruction sequence against a stack. -/
def evalInstrs (t : Table) (row : Nat) : IRExpr → List Value → Except EvalErr (List Value)
  | [], st => .ok st
  | i :: rest, st =>
    match step t row st i with
    | .error e => .error e
    | .ok st2 => evalInstrs t row rest st2

/-- `VM::eval_expr`: run the bytecode on a fresh empty stack; exactly one
value must remain, otherwise the `invalid stack state` error. -/
def eval_expr (t : Table) (e : IRExpr) (row : Nat) : Except EvalErr Value :=
  match evalInstrs t row e [] with
  | .error err => .error err
  | .ok [v] => .ok v
  | .ok _ => .error (.runtime "Expression evaluation error: invalid stack state")

/-! ## The filter operators -/

/-- An empty storage vector of the same variant (the schema copy both filter
operators start from). -/
def ColumnData.emptyLike : ColumnData → ColumnData
  | .int64s _ => .int64s []
  | .doubles _ => .doubles []
  | .strings _ => .strings []
  | .bools _ => .bools []

/-- The empty result table both filter operators build first: same column
names, same types, same storage variants, no data. -/
def Table.emptySchema (t : Table) : Table :=
  ⟨t.columns.map (fun c => { c with data := c.data.emptyLike }), 0⟩

/-- Append the cell of `src` at row `i` onto `dst` (one `append_int` /
`append_double` / `append_string` / `append_bool` call of the row-copy loop;
nulls are copied as nulls).  In the source, `dst` always holds the same
variant as `src` (the result table is a schema copy), so the mismatched
cases, which would throw `std::bad_variant_access`, are unreachable and leave
`dst` unchanged here. -/
def ColumnData.appendFrom : ColumnData → ColumnData → Nat → ColumnData
  | .int64s dst, .int64s src, i => .int64s (dst ++ [src.getD i none])
  | .doubles dst, .doubles src, i => .doubles (dst ++ [src.getD i none])
  | .strings dst, .strings src, i => .strings (dst ++ [src.getD i none])
  | .bools dst, .bools src, i => .bools (dst ++ [src.getD i none])
  | dst, _, _ => dst

/-- Copy row `r` of `src` onto the end of every column of `dst` and bump
`num_rows` (the `if (keep_row)` body shared verbatim by the scalar and the
vectorized filter). -/
def Table.appendRow (src dst : Table) (r : Nat) : Table :=
  ⟨List.zipWith (fun d s => { d with data := d.data.appendFrom s.data r }) dst.columns src.columns,
   dst.num_rows + 1⟩

/-- Interpret the final value of a filter predicate as the keep/discard
signal (vm.cpp, `execute_filter`): null discards; bool is used directly; an
int discards iff zero; anything else is the
`Filter predicate must return boolean` error. -/
def keepSignal : Value → Except EvalErr Bool
  | .null => .ok false
  | .bool b => .ok b
  | .int i => .ok (decide (i ≠ 0))
  | _ => .error (.runtime "Filter predicate must return boolean")

/-- The per-row decision of the scalar filter: evaluate the bytecode, then
convert the result to the keep/discard signal. -/
def rowKeep (t : Table) (p : IRExpr) (r : Nat) : Except EvalErr Bool :=
  match eval_expr t p r with
  | .error e => .error e
  | .ok v => keepSignal v

/-- The shared row-copy loop: walk the listed rows, appending those the
predicate keeps (the `if (selection[row]) / if (keep_row)` loop of both
filter operators). -/
def selectRows (t : Table) (keep : Nat → Bool) : List Nat → Table → Table
  | [], acc => acc
  | r :: rest, acc => selectRows t keep rest (if keep r then Table.appendRow t acc r else acc)

/-- The row loop of the scalar filter, with the evaluation in `Except`. -/
def filterRows (t : Table) (p : IRExpr) : List Nat → Table → Except EvalErr Table
  | [], acc => .ok acc
  | r :: rest, acc =>
    match rowKeep t p r with
    | .error e => .error e
    | .ok true => filterRows t p rest (Table.appendRow t acc r)
    | .ok false => filterRows t p rest acc

/-- `VM::execute_filter`: build an empty table with the same schema, evaluate
the predicate for every row index `0 … num_rows − 1`, copy the kept rows, and
return the result. -/
def execute_filter (p : IRExpr) (t : Table) : Except EvalErr Table :=
  filterRows t p (List.range t.num_rows) t.emptySchema

/-! ## The vectorized filter -/

/-- The scalar operand of a `VectorizedFilterOp`
(`std::variant<int64_t, double, std::string>`). -/
inductive VScalar where
  | int (v : Int)
  | double (v : F64)
  | str (s : String)
deriving DecidableEq

/-- `PhysicalOp::VectorizedFilterOp`.  `VectorOp` has exactly the six
comparisons of `CmpOp`. -/
structure VectorizedFilterOp where
  column_name : String
  op : CmpOp
  value : VScalar
deriving DecidableEq

/-- The `vec_*_int64` kernels (vectorized_ops): the bit is set iff the
element is non-null and the typed comparison holds.  The source has one
kernel per comparison; they differ only in the operator, factored here over
`CmpOp`. -/
def vec_cmp_int64 (op : CmpOp) (xs : List (Option Int)) (v : Int) : List Bool :=
  xs.map (fun x =>
    match x with
    | none => false
    | some x => cmpInt op x v)

/-- The `vec_*_double` kernels. -/
def vec_cmp_double (op : CmpOp) (xs : List (Option F64)) (v : F64) : List Bool :=
  xs.map (fun x =>
    match x with
    | none => false
    | some x => cmpRat op x v)

/-- The `vec_*_string` kernels. -/
def vec_cmp_string (op : CmpOp) (xs : List (Option String)) (v : String) : List Bool :=
  xs.map (fun x =>
    match x with
    | none => false
    | some x => cmpStr op x v)

/-- The selection-vector computation of `VM::execute_vectorized_filter`:
dispatch on the declared column type and the scalar's variant. An `INT64`
column accepts an int scalar (exact kernel) or a double scalar (promote each
non-null element inline); a `DOUBLE` column accepts either numeric scalar
(promoting an int scalar); a `STRING` column requires a string scalar; `BOOL`
columns are unsupported.  A storage variant that disagrees with the declared
type would throw `std::bad_variant_access` in the kernels (`badVariant`). -/
def computeSelection (c : Column) (op : CmpOp) (v : VScalar) : Except EvalErr (List Bool) :=
  match c.type with
  | .int64 =>
    match v with
    | .int k =>
      match c.data with
      | .int64s xs => .ok (vec_cmp_int64 op xs k)
      | _ => .error .badVariant
    | .double q =>
      match c.data with
      | .int64s xs =>
        .ok (xs.map (fun x =>
          match x with
          | none => false
          | some x => cmpRat op (x : F64) q))
      | _ => .error .badVariant
    | .str _ => .error (.runtime "Type mismatch: INT64 column requires numeric value")
  | .double =>
    match v with
    | .int k =>
      match c.data with
      | .doubles xs => .ok (vec_cmp_double op xs (k : F64))
      | _ => .error .badVariant
    | .double q =>
      match c.data with
      | .doubles xs => .ok (vec_cmp_double op xs q)
      | _ => .error .badVariant
    | .str _ => .error (.runtime "Type mismatch: DOUBLE column requires numeric value")
  | .string =>
    match v with
    | .str s =>
      match c.data with
      | .strings xs => .ok (vec_cmp_string op xs s)
      | _ => .error .badVariant
    | _ => .error (.runtime "Type mismatch: column is STRING but value is not")
  | .bool => .error (.runtime "Unsupported column type for vectorized filter")

/-- `VM::execute_vectorized_filter`: find the column (error if absent); a
table with no rows is left untouched; otherwise compute the selection vector
and materialize a fresh table from the selected rows with the same row-copy
loop as the scalar filter. -/
def execute_vectorized_filter (vop : VectorizedFilterOp) (t : Table) : Except EvalErr Table :=
  match t.get_column vop.column_name with
  | none => .error (.runtime ("Column not found: " ++ vop.column_name))
  | some c =>
    if t.num_rows = 0 then .ok t
    else
      match computeSelection c vop.op vop.value with
      | .error e => .error e
      | .ok sel =>
        .ok (selectRows t (fun r => sel.getD r false) (List.range t.num_rows) t.emptySchema)

/-! ## Projection -/

/-- The column-collection loop of `Table::project`: look each name up,
erroring on the first unknown one, and copy the found columns in the listed
order. -/
def projectCols (t : Table) : List String → Except EvalErr (List Column)
  | [] => .ok []
  | n :: rest =>
    match t.get_column n with
    | none => .error (.runtime ("Column not found: " ++ n))
    | some c =>
      match projectCols t rest with
      | .error e => .error e
      | .ok cs => .ok (c :: cs)

/-- `Table::project` (used by the `Project` operator): a new table with the
listed columns in the listed order and the same row count. -/
def Table.project (t : Table) (cols : List String) : Except EvalErr Table :=
  match projectCols t cols with
  | .error e => .error e
  | .ok cs => .ok ⟨cs, t.num_rows⟩

/-! ## The expression compiler -/

/-- A literal value (`struct Literal`, ast.hpp). -/
inductive LitVal where
  | int (v : Int)
  | double (v : F64)
  | str (s : String)
  | bool (b : Bool)
deriving DecidableEq

/-- `enum class BinaryOp` (ast.hpp). -/
inductive BinOp where
  | add
  | sub
  | mul
  | div
  | eq
  | neq
  | lt
  | gt
  | lte
  | gte
deriving DecidableEq

/-- `enum class UnaryOp` (ast.hpp). -/
inductive UnOp where
  | neg
  | not
deriving DecidableEq

/-- The expression AST (`struct Expr`, ast.hpp): literal, column reference,
binary, unary. -/
inductive Expr where
  | lit (v : LitVal)
  | col (name : String)
  | bin (op : BinOp) (l r : Expr)
  | un (op : UnOp) (e : Expr)
deriving DecidableEq

/-- The opcode a binary AST operator lowers to (`Compiler::compile_binary`). -/
def binInstr : BinOp → Instr
  | .add => .arith .add
  | .sub => .arith .sub
  | .mul => .arith .mul
  | .div => .arith .div
  | .eq => .cmp .eq
  | .neq => .cmp .neq
  | .lt => .cmp .lt
  | .gt => .cmp .gt
  | .lte => .cmp .lte
  | .gte => .cmp .gte

/-- `Compiler::compile_expr`: post-order emission — literals push, column
references load, binary compiles left then right then the operator opcode,
unary compiles the operand then `NEG`/`NOT`. -/
def compile_expr : Expr → IRExpr
  | .lit (.int v) => [.push_int v]
  | .lit (.double v) => [.push_double v]
  | .lit (.str s) => [.push_string s]
  | .lit (.bool b) => [.push_bool b]
  | .col n => [.load_column n]
  | .bin op l r => compile_expr l ++ compile_expr r ++ [binInstr op]
  | .un .neg e => compile_expr e ++ [.neg]
  | .un .not e => compile_expr e ++ [.lnot]

/-- The comparison check of `try_vectorize_filter`: `some` exactly on the six
comparison operators. -/
def cmpOfBin : BinOp → Option CmpOp
  | .eq => some .eq
  | .neq => some .neq
  | .lt => some .lt
  | .gt => some .gt
  | .lte => some .lte
  | .gte => some .gte
  | _ => none

/-- The operator reflection of the `literal op column` orientation
(`30 < age → age > 30`): `<→>`, `>→<`, `<=→>=`, `>=→<=`, `==`/`!=` fixed. -/
def reflectCmp : CmpOp → CmpOp
  | .gt => .lt
  | .lt => .gt
  | .gte => .lte
  | .lte => .gte
  | .eq => .eq
  | .neq => .neq

/-- The scalar a literal contributes to a `VectorizedFilterOp`; bool literals
are not supported and block vectorization. -/
def vscalarOfLit : LitVal → Option VScalar
  | .int v => some (.int v)
  | .double v => some (.double v)
  | .str s => some (.str s)
  | .bool _ => none

/-- `Compiler::try_vectorize_filter`: eligible iff the expression is a single
top-level binary comparison whose operands are `(ColumnRef, Literal)` or
`(Literal, ColumnRef)` with a non-bool literal; the reversed orientation
reflects the operator. -/
def try_vectorize_filter : Expr → Option VectorizedFilterOp
  | .bin op (.col name) (.lit l) =>
    match cmpOfBin op, vscalarOfLit l with
    | some c, some v => some ⟨name, c, v⟩
    | _, _ => none
  | .bin op (.lit l) (.col name) =>
    match cmpOfBin op, vscalarOfLit l with
    | some c, some v => some ⟨name, reflectCmp c, v⟩
    | _, _ => none
  | _ => none

/-! ## The CSV codec (table.cpp)

File I/O is abstracted: `read_csv` takes the file content as its list of
lines (the result of `std::getline`). -/

/-- The field accumulator of `split(s, ',')`. -/
def splitCommaChars : List Char → List (List Char)
  | [] => [[]]
  | c :: cs =>
    if c = ',' then [] :: splitCommaChars cs
    else
      match splitCommaChars cs with
      | [] => [[c]]
      | f :: rest => (c :: f) :: rest

/-- `split(s, ',')` (table.cpp): the substrings between commas, a trailing
empty field included (`split("a,b,") = ["a","b",""]`). -/
def splitComma (s : String) : List String := (splitCommaChars s.toList).map String.mk

/-- Is the character one of the `" \t\r\n"` set `trim` strips? -/
def isTrimChar (c : Char) : Bool := c = ' ' ∨ c = '\t' ∨ c = '\r' ∨ c = '\n'

/-- `trim` (table.cpp): the substring between the first and last character
not in `" \t\r\n"`. -/
def trim (s : String) : String :=
  String.mk (((s.toList.dropWhile isTrimChar).reverse.dropWhile isTrimChar).reverse)

/-- Digit span (the repeated `std::isdigit` loops). -/
def takeDigits : List Char → List Char × List Char
  | [] => ([], [])
  | c :: cs =>
    if c.isDigit then
      let p := takeDigits cs
      (c :: p.1, p.2)
    else ([], c :: cs)

/-- The numeric value of a digit string. -/
def digitsVal (ds : List Char) : Nat :=
  ds.foldl (fun a c => a * 10 + (c.toNat - 48)) 0

/-- `std::stoll` after trimming: an optional sign then one or more digits,
returning the value and the unconsumed rest (`stoll` parses the longest such
prefix and reports the stop position); no digits at all is the thrown
`invalid_argument`. -/
def parseIntCore (cs : List Char) : Option (Int × List Char) :=
  let p : Bool × List Char :=
    match cs with
    | '-' :: rest => (true, rest)
    | '+' :: rest => (false, rest)
    | _ => (false, cs)
  match takeDigits p.2 with
  | ([], _) => none
  | (ds, rest) => some (if p.1 then -(digitsVal ds : Int) else (digitsVal ds : Int), rest)

/-- `stoll(v, &pos); pos == v.size()`: the whole string is one integer. -/
def parsesAsIntFull (s : String) : Bool :=
  match parseIntCore s.toList with
  | some (_, []) => true
  | _ => false

/-- `stoll(v)` without the position check, as `append_value` calls it: the
leading integer prefix (so `12abc` stores `12`), `none` when `stoll` throws. -/
def parseIntPrefix (s : String) : Option Int :=
  (parseIntCore s.toList).map (fun p => p.1)

/-- `std::stod` after trimming, on the decimal grammar
`[+-]? (digits [. digits*] | . digits+) ([eE] [+-]? digits+)?`, returning the
value and the unconsumed rest.  (`stod` also accepts hex, `inf` and `nan`
spellings; none of those appear in any property proved here.) -/
def parseRatCore (cs : List Char) : Option (F64 × List Char) :=
  let sp : Bool × List Char :=
    match cs with
    | '-' :: rest => (true, rest)
    | '+' :: rest => (false, rest)
    | _ => (false, cs)
  let ipp := takeDigits sp.2
  let fpp : Option (List Char) × List Char :=
    match ipp.2 with
    | '.' :: rest =>
      let q := takeDigits rest
      (some q.1, q.2)
    | _ => (none, ipp.2)
  if ipp.1.isEmpty && (fpp.1.getD []).isEmpty then none
  else
    let frac := fpp.1.getD []
    let mant : F64 := (digitsVal ipp.1 : F64) + (digitsVal frac : F64) / (10 : F64) ^ frac.length
    let ep : Int × List Char :=
      match fpp.2 with
      | e :: rest =>
        if e = 'e' ∨ e = 'E' then
          match parseIntCore rest with
          | some (k, rest2) => (k, rest2)
          | none => (0, fpp.2)
        else (0, fpp.2)
      | [] => (0, fpp.2)
    let scaled : F64 :=
      if 0 ≤ ep.1 then mant * (10 : F64) ^ ep.1.toNat else mant / (10 : F64) ^ (-ep.1).toNat
    some (if sp.1 then -scaled else scaled, ep.2)

/-- `stod(v, &pos); pos == v.size()`: the whole string is one double. -/
def parsesAsDoubleFull (s : String) : Bool :=
  match parseRatCore s.toList with
  | some (_, []) => true
  | _ => false

/-- `stod(v)` without the position check, as `append_value` calls it. -/
def parseRatPrefix (s : String) : Option F64 :=
  (parseRatCore s.toList).map (fun p => p.1)

/-- `infer_type` (table.cpp): walk the column's values and decide from the
FIRST non-empty one — integer if it parses entirely as a signed integer, else
double if it parses entirely as a double, else string; all-empty defaults to
string.  (The enclosing loop returns unconditionally on the first non-empty
value, so later values never influence the choice.) -/
def infer_type : List String → ColumnType
  | [] => .string
  | v :: rest =>
    let v := trim v
    if v = "" then infer_type rest
    else if parsesAsIntFull v then .int64
    else if parsesAsDoubleFull v then .double
    else .string

/-- The empty storage vector of a declared type. -/
def emptyDataOf : ColumnType → ColumnData
  | .int64 => .int64s []
  | .double => .doubles []
  | .string => .strings []
  | .bool => .bools []

/-- `append_value` (table.cpp): trim; an empty cell appends null; otherwise
parse under the column's declared type (a parse failure is the
`Failed to parse value …` error; ints and doubles take the leading numeric
prefix exactly as `stoll`/`stod` do); strings append the trimmed text; bools
append `v == "true" || v == "1"`. -/
def append_value (c : Column) (value : String) : Except EvalErr Column :=
  if trim value = "" then
    match c.type, c.data with
    | .int64, .int64s xs => .ok { c with data := .int64s (xs ++ [none]) }
    | .double, .doubles xs => .ok { c with data := .doubles (xs ++ [none]) }
    | .string, .strings xs => .ok { c with data := .strings (xs ++ [none]) }
    | .bool, .bools xs => .ok { c with data := .bools (xs ++ [none]) }
    | _, _ => .error .badVariant
  else
    match c.type, c.data with
    | .int64, .int64s xs =>
      match parseIntPrefix (trim value) with
      | some k => .ok { c with data := .int64s (xs ++ [some k]) }
      | none =>
        .error (.runtime ("Failed to parse value \x27" ++ value ++ "\x27 for column " ++ c.name))
    | .double, .doubles xs =>
      match parseRatPrefix (trim value) with
      | some q => .ok { c with data := .doubles (xs ++ [some q]) }
      | none =>
        .error (.runtime ("Failed to parse value \x27" ++ value ++ "\x27 for column " ++ c.name))
    | .string, .strings xs => .ok { c with data := .strings (xs ++ [some (trim value)]) }
    | .bool, .bools xs =>
      .ok { c with data := .bools (xs ++ [some (decide (trim value = "true" ∨ trim value = "1"))]) }
    | _, _ => .error .badVariant

/-- The row-width verification loop of `read_csv` (row numbers are reported
1-based counting the header, hence `i + 2`). -/
def checkWidths (w : Nat) : Nat → List (List String) → Except EvalErr Unit
  | _, [] => .ok ()
  | i, r :: rest =>
    if r.length ≠ w then
      .error (.runtime ("Column count mismatch in CSV at row " ++ toString (i + 2)))
    else checkWidths w (i + 1) rest

/-- The column-construction loop of `read_csv`: for each header position,
infer the type from that position's values across all rows and start an
empty column of that type. -/
def initColumns (headers : List String) (all_rows : List (List String)) : List Column :=
  (List.range headers.length).map (fun i =>
    let ty := infer_type (all_rows.map (fun r => r.getD i ""))
    ⟨headers.getD i "", ty, emptyDataOf ty⟩)

/-- One row of the parsing loop: append each field to its column in order
(the loop runs over the row's fields, which the width check made as many as
the columns). -/
def appendRowVals : List Column → List String → Except EvalErr (List Column)
  | cs, [] => .ok cs
  | [], _ :: _ => .ok []
  | c :: cs, f :: fs =>
    match append_value c f with
    | .error e => .error e
    | .ok c2 =>
      match appendRowVals cs fs with
      | .error e => .error e
      | .ok cs2 => .ok (c2 :: cs2)

/-- The row loop of `read_csv`: parse every row, bumping `num_rows`. -/
def readRows : List Column → Nat → List (List String) → Except EvalErr Table
  | cols, n, [] => .ok ⟨cols, n⟩
  | cols, n, row :: rest =>
    match appendRowVals cols row with
    | .error e => .error e
    | .ok cols2 => readRows cols2 (n + 1) rest

/-- `read_csv` (table.cpp), on the file content given as its lines: the first
line is the comma-separated header (names trimmed); blank lines are skipped;
with no data rows the result is empty string columns; otherwise every row
must have exactly the header's width, types are inferred per column, and the
rows are parsed and appended. -/
def read_csv (lines : List String) : Except EvalErr Table :=
  match lines with
  | [] => .error (.runtime "Empty CSV file")
  | header :: rest =>
    let headers := (splitComma header).map trim
    let all_rows := (rest.filter (fun l => l ≠ "")).map splitComma
    if all_rows.isEmpty then
      .ok ⟨headers.map (fun h => ⟨h, .string, .strings []⟩), 0⟩
    else
      match checkWidths headers.length 0 all_rows with
      | .error e => .error e
      | .ok _ => readRows (initColumns headers all_rows) 0 all_rows

/-! ## The lexer (lexer.cpp and lexer.hpp)

The scanner is taken from `lexer.cpp`; the token model and the lexer's state
declarations come from `lexer.hpp` (present in the snapshot concatenated into
`src/include/compiler.hpp` after the first header): `struct Token` with its
kind, lexeme, `int line`, `int column`, the `int_value`/`double_value` union
and the `is_double` discriminator, and `class Lexer` with the initializers
`line_ = 1; column_ = 1;`. -/

/-- `enum class TokenType` (lexer.hpp): the keyword, literal, operator,
punctuation, end-of-file and error kinds. -/
inductive TokenType where
  | from_kw
  | filter_kw
  | select_kw
  | write_kw
  | not_kw
  | ident
  | number
  | string_lit
  | plus
  | minus
  | star
  | slash
  | comma
  | lparen
  | rparen
  | equal_equal
  | bang_equal
  | less
  | greater
  | less_equal
  | greater_equal
  | end_of_file
  | error_tok
deriving DecidableEq

/-- `struct Token` (lexer.hpp): kind, lexeme text, source line and column
(`int` in the C++; positions are nonnegative in every reachable lexer state,
so `Nat` here), and the parsed numeric value — a union in the C++,
discriminated by `is_double` and meaningful only for `NUMBER` tokens; the
model carries both fields, the unused one at its zero default. -/
structure Token where
  type : TokenType
  lexeme : String
  line : Nat
  col : Nat
  is_double : Bool
  int_value : Int
  double_value : F64
deriving DecidableEq

/-- The fixed keyword table. -/
def keywordType (s : String) : TokenType :=
  if s = "from" then .from_kw
  else if s = "filter" then .filter_kw
  else if s = "select" then .select_kw
  else if s = "write" then .write_kw
  else if s = "not" then .not_kw
  else .ident

/-- `make_token`: the column is the position counter minus the lexeme
length. -/
def mkTok (ty : TokenType) (lexeme : String) (l c : Nat) : Token :=
  ⟨ty, lexeme, l, c - lexeme.length, false, 0, 0⟩

/-- `Lexer::skip_whitespace`: spaces, tabs and carriage returns advance the
column; a newline bumps the line, resets the column to 0 and then the
`advance()` call moves it to 1; `#` enters comment mode, which consumes up to
but not including the next newline (the newline is then handled by the
whitespace rule).  The C++ nests the comment consumption as an inner loop;
here it is the `inComment` flag, so that the recursion is structural. -/
def skipWsAux : List Char → Nat → Nat → Bool → List Char × Nat × Nat
  | [], l, c, _ => ([], l, c)
  | ch :: rest, l, c, inComment =>
    if inComment then
      if ch = '\n' then skipWsAux rest (l + 1) 1 false
      else skipWsAux rest l (c + 1) true
    else if ch = ' ' ∨ ch = '\r' ∨ ch = '\t' then skipWsAux rest l (c + 1) false
    else if ch = '\n' then skipWsAux rest (l + 1) 1 false
    else if ch = '#' then skipWsAux rest l (c + 1) true
    else (ch :: rest, l, c)

def skip_whitespace (src : List Char) (l c : Nat) : List Char × Nat × Nat :=
  skipWsAux src l c false

/-- The identifier span (`isalnum` or underscore). -/
def spanIdent : List Char → List Char × List Char
  | [] => ([], [])
  | c :: cs =>
    if c.isAlphanum ∨ c = '_' then
      let p := spanIdent cs
      (c :: p.1, p.2)
    else ([], c :: cs)

/-- `scan_number`: digits, then a fractional part only when a `.` is
immediately followed by another digit; the parsed value is stored in the
token with the `is_double` flag. -/
def mkIntNumber (ds : List Char) (rest : List Char) (l c : Nat) :
    Token × List Char × Nat × Nat :=
  (⟨.number, String.mk ds, l, c - ds.length, false, (digitsVal ds : Int), 0⟩, rest, l, c)

def scanNumber (first : Char) (rest : List Char) (l c : Nat) :
    Token × List Char × Nat × Nat :=
  let p := takeDigits rest
  let ipart := first :: p.1
  let c1 := c + p.1.length
  match p.2 with
  | '.' :: d :: r2 =>
    if d.isDigit then
      let q := takeDigits r2
      let fpart := d :: q.1
      let lex := ipart ++ ['.'] ++ fpart
      let c2 := c1 + 1 + fpart.length
      (⟨.number, String.mk lex, l, c2 - lex.length, true, 0,
        (digitsVal ipart : F64) + (digitsVal fpart : F64) / (10 : F64) ^ fpart.length⟩,
       r2.drop q.1.length, l, c2)
    else mkIntNumber ipart p.2 l c1
  | _ => mkIntNumber ipart p.2 l c1

/-- `scan_string`: consume until the closing quote (newlines permitted,
updating the counters exactly as `skip_whitespace` does); end of file first
is the `Unterminated string` error; the stored lexeme is the content without
the quotes, while the column arithmetic still uses the quoted length. -/
def scanStringLit (src : List Char) (l c : Nat) (acc : List Char) :
    Token × List Char × Nat × Nat :=
  match src with
  | [] => (⟨.error_tok, "Unterminated string", l, c, false, 0, 0⟩, [], l, c)
  | '"' :: rest =>
    (⟨.string_lit, String.mk acc, l, (c + 1) - (acc.length + 2), false, 0, 0⟩, rest, l, c + 1)
  | ch :: rest =>
    if ch = '\n' then scanStringLit rest (l + 1) 1 (acc ++ [ch])
    else scanStringLit rest l (c + 1) (acc ++ [ch])

/-- `Lexer::scan_token`: skip whitespace and comments, then scan one token
at the current position; a bare `=` or `!`, or any unrecognized character,
yields an ERROR token carrying the message and position. -/
def scan_token (src0 : List Char) (l0 c0 : Nat) : Token × List Char × Nat × Nat :=
  match skip_whitespace src0 l0 c0 with
  | (src, l, c) =>
    match src with
    | [] => (mkTok .end_of_file "" l c, [], l, c)
    | ch :: rest =>
      let c1 := c + 1
      if ch.isAlpha ∨ ch = '_' then
        let p := spanIdent rest
        let lex := String.mk (ch :: p.1)
        let c2 := c1 + p.1.length
        (mkTok (keywordType lex) lex l c2, p.2, l, c2)
      else if ch.isDigit then scanNumber ch rest l c1
      else if ch = '"' then scanStringLit rest l c1 []
      else if ch = '+' then (mkTok .plus "+" l c1, rest, l, c1)
      else if ch = '-' then (mkTok .minus "-" l c1, rest, l, c1)
      else if ch = '*' then (mkTok .star "*" l c1, rest, l, c1)
      else if ch = '/' then (mkTok .slash "/" l c1, rest, l, c1)
      else if ch = ',' then (mkTok .comma "," l c1, rest, l, c1)
      else if ch = '(' then (mkTok .lparen "(" l c1, rest, l, c1)
      else if ch = ')' then (mkTok .rparen ")" l c1, rest, l, c1)
      else if ch = '<' then
        match rest with
        | '=' :: rest2 => (mkTok .less_equal "<=" l (c1 + 1), rest2, l, c1 + 1)
        | _ => (mkTok .less "<" l c1, rest, l, c1)
      else if ch = '>' then
        match rest with
        | '=' :: rest2 => (mkTok .greater_equal ">=" l (c1 + 1), rest2, l, c1 + 1)
        | _ => (mkTok .greater ">" l c1, rest, l, c1)
      else if ch = '=' then
        match rest with
        | '=' :: rest2 => (mkTok .equal_equal "==" l (c1 + 1), rest2, l, c1 + 1)
        | _ => (⟨.error_tok, "Unexpected character \x27=\x27", l, c1, false, 0, 0⟩, rest, l, c1)
      else if ch = '!' then
        match rest with
        | '=' :: rest2 => (mkTok .bang_equal "!=" l (c1 + 1), rest2, l, c1 + 1)
        | _ => (⟨.error_tok, "Unexpected character \x27!\x27", l, c1, false, 0, 0⟩, rest, l, c1)
      else (⟨.error_tok, "Unexpected character", l, c1, false, 0, 0⟩, rest, l, c1)

/-- The scanning loop of `Lexer::tokenize`: scan until the end of input,
SILENTLY DROPPING error tokens (`if (token.type != TokenType::ERROR)`).
The fuel argument only bounds the iteration count; `source.length + 1` is
always enough because every continuing iteration consumes input. -/
def tokenizeLoop : Nat → List Char → Nat → Nat → List Token → List Token × Nat × Nat
  | 0, _, l, c, acc => (acc, l, c)
  | fuel + 1, src, l, c, acc =>
    match src with
    | [] => (acc, l, c)
    | _ =>
      match scan_token src l c with
      | (tok, src2, l2, c2) =>
        tokenizeLoop fuel src2 l2 c2 (if tok.type = .error_tok then acc else acc ++ [tok])

/-- `Lexer::tokenize`: run the scanning loop over the whole source, then
guarantee a single trailing end-of-file token.  The counters start at line 1,
column 1, the member initializers `line_ = 1; column_ = 1;` of `class Lexer`
(lexer.hpp). -/
def tokenize (source : String) : List Token :=
  match tokenizeLoop (source.length + 1) source.toList 1 1 [] with
  | (toks, l, c) =>
    if toks.getLast?.all (fun tk => tk.type ≠ .end_of_file) then
      toks ++ [⟨.end_of_file, "", l, c, false, 0, 0⟩]
    else toks

/-! ## Specification-side descriptions and invariants -/

/-- The type-inference rule as the specification states it (§4.6): scan ALL
non-empty field values; `Int64` iff every one parses entirely as a signed
integer; else `Double` iff every one parses entirely as a double; else
`String`. -/
def infer_type_spec (values : List String) : ColumnType :=
  let vs := (values.map trim).filter (fun v => v ≠ "")
  if vs.all parsesAsIntFull then .int64
  else if vs.all parsesAsDoubleFull then .double
  else .string

/-- The listed rows of a column, extracted in order with content (including
nulls) unchanged. -/
def ColumnData.gatherRows (d : ColumnData) (rows : List Nat) : ColumnData :=
  match d with
  | .int64s xs => .int64s (rows.map (fun r => xs.getD r none))
  | .doubles xs => .doubles (rows.map (fun r => xs.getD r none))
  | .strings xs => .strings (rows.map (fun r => xs.getD r none))
  | .bools xs => .bools (rows.map (fun r => xs.getD r none))

/-- The listed rows of a table, extracted in order, column by column: the
specification-side description of a filter's output. -/
def Table.gather (t : Table) (rows : List Nat) : Table :=
  ⟨t.columns.map (fun c => { c with data := c.data.gatherRows rows }), rows.length⟩

/-- The table invariant: every column's storage length equals `num_rows`. -/
def Table.sizesOk (t : Table) : Prop := ∀ c ∈ t.columns, c.data.size = t.num_rows

/-- A column's declared type matches its storage variant. -/
def Column.typeOk (c : Column) : Prop := c.data.typeTag = c.type

instance (c : Column) : Decidable c.typeOk :=
  inferInstanceAs (Decidable (c.data.typeTag = c.type))

instance (t : Table) : Decidable t.sizesOk :=
  inferInstanceAs (Decidable (∀ c ∈ t.columns, c.data.size = t.num_rows))

/-- The per-row keep decision of the scalar filter as a plain boolean
(`false` on the error paths, which a successful filter run never takes). -/
def rowKeepB (t : Table) (p : IRExpr) (r : Nat) : Bool :=
  match rowKeep t p r with
  | .ok b => b
  | .error _ => false

/-- The selection vector a vectorized filter computes, as a total function
(empty on the error paths). -/
def vecSelection (t : Table) (vop : VectorizedFilterOp) : List Bool :=
  match t.get_column vop.column_name with
  | none => []
  | some c =>
    match computeSelection c vop.op vop.value with
    | .ok sel => sel
    | .error _ => []

/-- Whether the vectorized predicate accepts row `r`. -/
def vecPassB (t : Table) (vop : VectorizedFilterOp) (r : Nat) : Bool :=
  (vecSelection t vop).getD r false

/-- Whether a vectorized scalar operand is executable against a column of the
given declared type without a type-mismatch error: numeric scalars go with
numeric columns, string scalars with string columns. -/
def scalarCompatible : ColumnType → VScalar → Bool
  | .int64, .int _ => true
  | .int64, .double _ => true
  | .double, .int _ => true
  | .double, .double _ => true
  | .string, .str _ => true
  | _, _ => false

/-- The per-row truth value of a `column cmp scalar` comparison, directly from
the column storage: false on a null cell, the typed comparison (with the same
numeric promotions both execution paths perform) otherwise. -/
def cellCmpB (d : ColumnData) (op : CmpOp) (v : VScalar) (r : Nat) : Bool :=
  match d, v with
  | .int64s xs, .int k =>
    match xs.getD r none with
    | none => false
    | some x => cmpInt op x k
  | .int64s xs, .double q =>
    match xs.getD r none with
    | none => false
    | some x => cmpRat op (x : F64) q
  | .doubles xs, .int k =>
    match xs.getD r none with
    | none => false
    | some x => cmpRat op x (k : F64)
  | .doubles xs, .double q =>
    match xs.getD r none with
    | none => false
    | some x => cmpRat op x q
  | .strings xs, .str s =>
    match xs.getD r none with
    | none => false
    | some x => cmpStr op x s
  | _, _ => false

/-! ## The reference (recursive) evaluator and the compile simulation -/

/-- The runtime value of a literal. -/
def litValue : LitVal → Value
  | .int v => .int v
  | .double v => .double v
  | .str s => .str s
  | .bool b => .bool b

/-- The semantics of a binary AST operator on two evaluated operands: exactly
the opcode `binInstr` lowers it to. -/
def applyBinOp : BinOp → Value → Value → Except EvalErr Value
  | .add, a, b => applyArith .add a b
  | .sub, a, b => applyArith .sub a b
  | .mul, a, b => applyArith .mul a b
  | .div, a, b => applyArith .div a b
  | .eq, a, b => applyCmp .eq a b
  | .neq, a, b => applyCmp .neq a b
  | .lt, a, b => applyCmp .lt a b
  | .gt, a, b => applyCmp .gt a b
  | .lte, a, b => applyCmp .lte a b
  | .gte, a, b => applyCmp .gte a b

/-- The semantics of a unary AST operator. -/
def applyUnOp : UnOp → Value → Except EvalErr Value
  | .neg, a => applyNeg a
  | .not, a => applyNot a

/-- The recursive reference evaluator of expression trees, against which the
stack machine running compiled bytecode is proved. -/
def evalExprA (t : Table) (row : Nat) : Expr → Except EvalErr Value
  | .lit v => .ok (litValue v)
  | .col n => loadColumn t row n
  | .bin op l r =>
    match evalExprA t row l with
    | .error e => .error e
    | .ok a =>
      match evalExprA t row r with
      | .error e => .error e
      | .ok b => applyBinOp op a b
  | .un op e =>
    match evalExprA t row e with
    | .error err => .error err
    | .ok a => applyUnOp op a

theorem evalInstrs_append (t : Table) (row : Nat) (l1 l2 : IRExpr) (st : List Value) :
    evalInstrs t row (l1 ++ l2) st =
      match evalInstrs t row l1 st with
      | .error e => .error e
      | .ok st2 => evalInstrs t row l2 st2 := by
  induction l1 generalizing st with
  | nil => simp [evalInstrs]
  | cons i rest ih =>
    simp only [List.cons_append, evalInstrs]
    cases step t row st i <;> simp [ih]

theorem step_binInstr (t : Table) (row : Nat) (op : BinOp) (a b : Value) (st : List Value) :
    step t row (b :: a :: st) (binInstr op) =
      match applyBinOp op a b with
      | .error e => .error e
      | .ok v => .ok (v :: st) := by
  cases op <;> rfl

/-- Compiled bytecode, run on any stack, simulates the reference evaluator:
it pushes exactly the evaluated value, or fails with exactly the evaluation's
error. -/
theorem compile_simulates (t : Table) (row : Nat) (e : Expr) (st : List Value) :
    evalInstrs t row (compile_expr e) st =
      match evalExprA t row e with
      | .error err => .error err
      | .ok v => .ok (v :: st) := by
  induction e generalizing st with
  | lit v =>
    cases v <;> rfl
  | col n =>
    simp only [compile_expr, evalInstrs, step, evalExprA]
    cases loadColumn t row n <;> rfl
  | bin op l r ihl ihr =>
    have hsh : compile_expr (.bin op l r) =
        compile_expr l ++ (compile_expr r ++ [binInstr op]) := by
      simp [compile_expr]
    rw [hsh, evalInstrs_append, ihl]
    cases hl : evalExprA t row l with
    | error err => simp [evalExprA, hl]
    | ok a =>
      show evalInstrs t row (compile_expr r ++ [binInstr op]) (a :: st) = _
      rw [evalInstrs_append, ihr]
      cases hr : evalExprA t row r with
      | error err => simp [evalExprA, hl, hr]
      | ok b =>
        show evalInstrs t row [binInstr op] (b :: a :: st) = _
        simp only [evalInstrs, step_binInstr]
        cases hb : applyBinOp op a b <;> simp [evalExprA, hl, hr, hb, evalInstrs]
  | un op e ih =>
    cases op with
    | neg =>
      rw [show compile_expr (.un .neg e) = compile_expr e ++ [.neg] from rfl,
        evalInstrs_append, ih]
      cases he : evalExprA t row e with
      | error err => simp [evalExprA, he]
      | ok a =>
        show evalInstrs t row [.neg] (a :: st) = _
        simp only [evalInstrs, step]
        cases ha : applyNeg a <;> simp [evalExprA, he, applyUnOp, ha, evalInstrs]
    | not =>
      rw [show compile_expr (.un .not e) = compile_expr e ++ [.lnot] from rfl,
        evalInstrs_append, ih]
      cases he : evalExprA t row e with
      | error err => simp [evalExprA, he]
      | ok a =>
        show evalInstrs t row [.lnot] (a :: st) = _
        simp only [evalInstrs, step]
        cases ha : applyNot a <;> simp [evalExprA, he, applyUnOp, ha, evalInstrs]

/-- The VM evaluation of compiled bytecode is the reference evaluation. -/
theorem eval_compiled (t : Table) (row : Nat) (e : Expr) :
    eval_expr t (compile_expr e) row = evalExprA t row e := by
  unfold eval_expr
  rw [compile_simulates]
  cases evalExprA t row e <;> rfl

theorem applyArith_ne_underflow (op : ArithOp) (a b : Value) :
    applyArith op a b ≠ .error .underflow := by
  unfold applyArith
  cases a <;> cases b <;> simp [Value.isNull] <;> split <;> simp

theorem applyCmp_ne_underflow (op : CmpOp) (a b : Value) :
    applyCmp op a b ≠ .error .underflow := by
  unfold applyCmp
  cases a <;> cases b <;> cases op <;> simp [Value.isNull]

theorem applyNeg_ne_underflow (a : Value) : applyNeg a ≠ .error .underflow := by
  cases a <;> simp [applyNeg]

theorem applyNot_ne_underflow (a : Value) : applyNot a ≠ .error .underflow := by
  cases a <;> simp [applyNot]

theorem loadColumn_ne_underflow (t : Table) (row : Nat) (n : String) :
    loadColumn t row n ≠ .error .underflow := by
  unfold loadColumn
  cases t.get_column n <;> simp

theorem applyBinOp_ne_underflow (op : BinOp) (a b : Value) :
    applyBinOp op a b ≠ .error .underflow := by
  cases op <;>
    first
      | exact applyArith_ne_underflow _ a b
      | exact applyCmp_ne_underflow _ a b

theorem applyUnOp_ne_underflow (op : UnOp) (a : Value) :
    applyUnOp op a ≠ .error .underflow := by
  cases op with
  | neg => exact applyNeg_ne_underflow a
  | not => exact applyNot_ne_underflow a

/-- The reference evaluation never signals a stack underflow: its only
failures are runtime errors. -/
theorem evalExprA_ne_underflow (t : Table) (row : Nat) (e : Expr) :
    evalExprA t row e ≠ .error .underflow := by
  induction e with
  | lit v => simp [evalExprA]
  | col n => exact loadColumn_ne_underflow t row n
  | bin op l r ihl ihr =>
    simp only [evalExprA]
    cases hl : evalExprA t row l with
    | error err =>
      intro hc
      injection hc with h2
      exact ihl (h2 ▸ hl)
    | ok a =>
      cases hr : evalExprA t row r with
      | error err =>
        intro hc
        injection hc with h2
        exact ihr (h2 ▸ hr)
      | ok b => exact applyBinOp_ne_underflow op a b
  | un op e ih =>
    simp only [evalExprA]
    cases he : evalExprA t row e with
    | error err =>
      intro hc
      injection hc with h2
      exact ih (h2 ▸ he)
    | ok a => exact applyUnOp_ne_underflow op a

/-! ## The filter loops produce row-gathers -/

theorem zipWith_map_left_self {α β γ : Type} (f : β → α → γ) (g : α → β) (l : List α) :
    List.zipWith f (l.map g) l = l.map (fun a => f (g a) a) := by
  induction l with
  | nil => rfl
  | cons a as ih => simp [ih]

theorem appendFrom_gather (d : ColumnData) (rs : List Nat) (r : Nat) :
    (d.gatherRows rs).appendFrom d r = d.gatherRows (rs ++ [r]) := by
  cases d <;> simp [ColumnData.gatherRows, ColumnData.appendFrom]

theorem appendRow_gather (t : Table) (rs : List Nat) (r : Nat) :
    Table.appendRow t (t.gather rs) r = t.gather (rs ++ [r]) := by
  unfold Table.appendRow Table.gather
  simp only [zipWith_map_left_self]
  congr 1
  all_goals first
    | exact List.map_congr_left (fun c _ => by simp [appendFrom_gather])
    | simp

theorem emptySchema_gather (t : Table) : t.emptySchema = t.gather [] := by
  unfold Table.emptySchema Table.gather
  congr 1

theorem selectRows_gather (t : Table) (keep : Nat → Bool) (rows : List Nat) (rs : List Nat) :
    selectRows t keep rows (t.gather rs) = t.gather (rs ++ rows.filter keep) := by
  induction rows generalizing rs with
  | nil => simp [selectRows]
  | cons r rest ih =>
    simp only [selectRows]
    by_cases h : keep r
    · rw [if_pos h, appendRow_gather, ih]
      simp [List.filter_cons, h]
    · rw [if_neg h, ih]
      simp [List.filter_cons, h]

theorem selectRows_congr (t : Table) (f g : Nat → Bool) (rows : List Nat) (acc : Table)
    (h : ∀ r ∈ rows, f r = g r) :
    selectRows t f rows acc = selectRows t g rows acc := by
  induction rows generalizing acc with
  | nil => rfl
  | cons r rest ih =>
    simp only [selectRows]
    rw [h r (by simp)]
    exact ih _ (fun x hx => h x (by simp [hx]))

/-- A successful scalar filter run returns exactly the gather of the rows its
per-row decision kept. -/
theorem filterRows_ok (t : Table) (p : IRExpr) (rows : List Nat) (acc t2 : Table)
    (h : filterRows t p rows acc = .ok t2) :
    t2 = selectRows t (rowKeepB t p) rows acc := by
  induction rows generalizing acc with
  | nil =>
    injection h with h
    simp [selectRows, h]
  | cons r rest ih =>
    simp only [filterRows] at h
    cases hk : rowKeep t p r with
    | error e => rw [hk] at h; cases h
    | ok b =>
      rw [hk] at h
      have hkb : rowKeepB t p r = b := by simp [rowKeepB, hk]
      cases b with
      | false =>
        simp only [selectRows, hkb, if_neg Bool.false_ne_true]
        exact ih _ h
      | true =>
        simp only [selectRows, hkb, if_pos rfl]
        exact ih _ h

/-- If every listed row's decision succeeds with a given mask, the scalar
filter loop succeeds with the mask's selection. -/
theorem filterRows_of_mask (t : Table) (p : IRExpr) (rows : List Nat) (acc : Table)
    (mask : Nat → Bool) (h : ∀ r ∈ rows, rowKeep t p r = .ok (mask r)) :
    filterRows t p rows acc = .ok (selectRows t mask rows acc) := by
  induction rows generalizing acc with
  | nil => rfl
  | cons r rest ih =>
    simp only [filterRows, selectRows, h r (by simp)]
    cases hm : mask r <;>
      simp [hm, ih _ (fun x hx => h x (by simp [hx]))]

/-- `execute_filter` characterized: on success the result is the subsequence
of input rows the predicate kept, in input order, content copied unchanged. -/
theorem execute_filter_ok (p : IRExpr) (t t2 : Table)
    (h : execute_filter p t = .ok t2) :
    t2 = t.gather ((List.range t.num_rows).filter (rowKeepB t p)) := by
  unfold execute_filter at h
  rw [filterRows_ok t p _ _ _ h, emptySchema_gather, selectRows_gather]
  simp

/-- `execute_vectorized_filter` characterized similarly, via the selection
vector. -/
theorem execute_vectorized_filter_ok (vop : VectorizedFilterOp) (t t2 : Table)
    (hsz : t.sizesOk) (h : execute_vectorized_filter vop t = .ok t2) :
    t2 = t.gather ((List.range t.num_rows).filter (vecPassB t vop)) := by
  unfold execute_vectorized_filter at h
  cases hc : t.get_column vop.column_name with
  | none => rw [hc] at h; cases h
  | some c =>
    simp only [hc] at h
    by_cases hz : t.num_rows = 0
    · rw [if_pos hz] at h
      injection h with h
      subst h
      rw [hz]
      simp only [List.range_zero, List.filter_nil]
      unfold Table.gather
      cases t with
      | mk cols n =>
        simp only at hz
        subst hz
        congr 1
        symm
        refine (List.map_congr_left (fun col hcol => ?_)).trans (List.map_id cols)
        obtain ⟨nm, ty, d⟩ := col
        have hs : ColumnData.size d = 0 := hsz ⟨nm, ty, d⟩ hcol
        cases d <;>
          simp_all [ColumnData.gatherRows, ColumnData.size, List.length_eq_zero, id]
    · rw [if_neg hz] at h
      cases hsel : computeSelection c vop.op vop.value with
      | error e => rw [hsel] at h; cases h
      | ok sel =>
        simp only [hsel] at h
        injection h with h
        subst h
        rw [emptySchema_gather, selectRows_gather]
        simp only [List.nil_append]
        congr 1
        refine List.filter_congr (fun r _ => ?_)
        simp [vecPassB, vecSelection, hc, hsel]

/-! ## Vectorized / scalar filter equivalence -/

theorem cmpInt_reflect (op : CmpOp) (a b : Int) :
    cmpInt (reflectCmp op) a b = cmpInt op b a := by
  cases op <;> simp [cmpInt, reflectCmp, eq_comm]

theorem cmpRat_reflect (op : CmpOp) (a b : F64) :
    cmpRat (reflectCmp op) a b = cmpRat op b a := by
  cases op <;> simp [cmpRat, reflectCmp, eq_comm]

theorem cmpStr_reflect (op : CmpOp) (a b : String) :
    cmpStr (reflectCmp op) a b = cmpStr op b a := by
  cases op <;> simp [cmpStr, reflectCmp, eq_comm]

theorem getD_map_false {α : Type} (xs : List (Option α)) (f : Option α → Bool) (r : Nat)
    (hf : f none = false) :
    (xs.map f).getD r false = f (xs.getD r none) := by
  induction xs generalizing r with
  | nil => simp [hf]
  | cons x rest ih =>
    cases r with
    | zero => simp
    | succ n => simpa using ih n

/-- Under a well-tagged column and a type-compatible scalar, the selection
vector computes, and its bits are the per-cell comparison. -/
theorem computeSelection_compat (c : Column) (op : CmpOp) (v : VScalar)
    (htype : c.typeOk) (hcompat : scalarCompatible c.type v = true) :
    ∃ sel, computeSelection c op v = .ok sel ∧
      ∀ r, sel.getD r false = cellCmpB c.data op v r := by
  obtain ⟨nm, ty, d⟩ := c
  have hty : ColumnData.typeTag d = ty := htype
  subst hty
  cases d <;> cases v <;>
    simp [scalarCompatible, ColumnData.typeTag] at hcompat <;>
    refine ⟨_, rfl, fun r => ?_⟩ <;>
    simp only [vec_cmp_int64, vec_cmp_double, vec_cmp_string, cellCmpB] <;>
    exact getD_map_false _ _ r rfl

theorem applyBinOp_cmp {bop : BinOp} {cop : CmpOp} (hb : cmpOfBin bop = some cop)
    (a b : Value) : applyBinOp bop a b = applyCmp cop a b := by
  cases bop <;> simp [cmpOfBin] at hb <;> rw [← hb] <;> rfl

/-- A type-compatible comparison of a cell (left) against a literal (right)
never errors: its value is the per-cell comparison bit. -/
theorem applyCmp_cell_lit (d : ColumnData) (r : Nat) (cop : CmpOp) (l : LitVal) (v : VScalar)
    (hl : vscalarOfLit l = some v)
    (hcompat : scalarCompatible d.typeTag v = true) :
    applyCmp cop (d.cell r) (litValue l) = .ok (.bool (cellCmpB d cop v r)) := by
  cases l <;> simp [vscalarOfLit] at hl <;> subst hl <;>
    cases d <;>
    simp [scalarCompatible, ColumnData.typeTag] at hcompat <;>
    rename_i xs <;>
    cases hcell : xs.getD r none <;>
    simp only [ColumnData.cell, litValue, cellCmpB, hcell] <;>
    simp [applyCmp, Value.isNull]

/-- The reversed orientation: a literal (left) against a cell (right), which
agrees with the reflected operator applied the other way round. -/
theorem applyCmp_lit_cell (d : ColumnData) (r : Nat) (cop : CmpOp) (l : LitVal) (v : VScalar)
    (hl : vscalarOfLit l = some v)
    (hcompat : scalarCompatible d.typeTag v = true) :
    applyCmp cop (litValue l) (d.cell r) = .ok (.bool (cellCmpB d (reflectCmp cop) v r)) := by
  cases l <;> simp [vscalarOfLit] at hl <;> subst hl <;>
    cases d <;>
    simp [scalarCompatible, ColumnData.typeTag] at hcompat <;>
    rename_i xs <;>
    cases hcell : xs.getD r none <;>
    simp only [ColumnData.cell, litValue, cellCmpB, hcell, cmpInt_reflect, cmpRat_reflect,
      cmpStr_reflect] <;>
    simp [applyCmp, Value.isNull]

/-- The scalar row decision for a compiled `column cmp literal` comparison is
exactly the per-cell comparison bit. -/
theorem rowKeep_forward (t : Table) (r : Nat) (n : String) (l : LitVal)
    (bop : BinOp) (cop : CmpOp) (c : Column) (v : VScalar)
    (hb : cmpOfBin bop = some cop) (hl : vscalarOfLit l = some v)
    (hc : t.get_column n = some c)
    (htype : c.typeOk) (hcompat : scalarCompatible c.type v = true) :
    rowKeep t (compile_expr (.bin bop (.col n) (.lit l))) r =
      .ok (cellCmpB c.data cop v r) := by
  have hcompat2 : scalarCompatible c.data.typeTag v = true := by
    rw [htype]; exact hcompat
  unfold rowKeep
  rw [eval_compiled]
  simp only [evalExprA, loadColumn, hc]
  rw [applyBinOp_cmp hb, applyCmp_cell_lit c.data r cop l v hl hcompat2]
  rfl

/-- The same for the reversed `literal cmp column` orientation. -/
theorem rowKeep_reversed (t : Table) (r : Nat) (n : String) (l : LitVal)
    (bop : BinOp) (cop : CmpOp) (c : Column) (v : VScalar)
    (hb : cmpOfBin bop = some cop) (hl : vscalarOfLit l = some v)
    (hc : t.get_column n = some c)
    (htype : c.typeOk) (hcompat : scalarCompatible c.type v = true) :
    rowKeep t (compile_expr (.bin bop (.lit l) (.col n))) r =
      .ok (cellCmpB c.data (reflectCmp cop) v r) := by
  have hcompat2 : scalarCompatible c.data.typeTag v = true := by
    rw [htype]; exact hcompat
  unfold rowKeep
  rw [eval_compiled]
  simp only [evalExprA, loadColumn, hc]
  rw [applyBinOp_cmp hb, applyCmp_lit_cell c.data r cop l v hl hcompat2]
  rfl

/-- The core equivalence: when the named column exists, is well-tagged, the
scalar is type-compatible, the table satisfies the length invariant, and the
scalar predicate's row decision is the per-cell comparison, the two filter
operators return the same result. -/
theorem filter_equiv_core (t : Table) (p : IRExpr) (vop : VectorizedFilterOp) (c : Column)
    (hc : t.get_column vop.column_name = some c)
    (htype : c.typeOk) (hcompat : scalarCompatible c.type vop.value = true)
    (hsz : t.sizesOk)
    (hrow : ∀ r, rowKeep t p r = .ok (cellCmpB c.data vop.op vop.value r)) :
    execute_vectorized_filter vop t = execute_filter p t := by
  obtain ⟨sel, hsel, hpt⟩ := computeSelection_compat c vop.op vop.value htype hcompat
  unfold execute_vectorized_filter
  simp only [hc, hsel]
  unfold execute_filter
  rw [filterRows_of_mask t p _ _ _ (fun r _ => hrow r)]
  by_cases hz : t.num_rows = 0
  · rw [if_pos hz, hz]
    simp only [List.range_zero, selectRows]
    rw [emptySchema_gather]
    congr 1
    cases t with
    | mk cols n =>
      simp only at hz
      subst hz
      unfold Table.gather
      congr 1
      symm
      refine (List.map_congr_left (fun col hcol => ?_)).trans (List.map_id cols)
      obtain ⟨nm2, ty2, d2⟩ := col
      have hs : ColumnData.size d2 = 0 := hsz ⟨nm2, ty2, d2⟩ hcol
      cases d2 <;>
        simp_all [ColumnData.gatherRows, ColumnData.size, List.length_eq_zero, id]
  · rw [if_neg hz]
    congr 1
    exact selectRows_congr t _ _ _ _ (fun r _ => hpt r)

/-- Inverting a successful vectorization: the expression is one of the two
eligible shapes and the operator/scalar are as the detector computes. -/
theorem try_vectorize_inv (e : Expr) (vop : VectorizedFilterOp)
    (hv : try_vectorize_filter e = some vop) :
    (∃ bop n l cop v, e = .bin bop (.col n) (.lit l) ∧ cmpOfBin bop = some cop ∧
      vscalarOfLit l = some v ∧ vop = ⟨n, cop, v⟩) ∨
    (∃ bop n l cop v, e = .bin bop (.lit l) (.col n) ∧ cmpOfBin bop = some cop ∧
      vscalarOfLit l = some v ∧ vop = ⟨n, reflectCmp cop, v⟩) := by
  cases e with
  | lit v => simp [try_vectorize_filter] at hv
  | col n => simp [try_vectorize_filter] at hv
  | un op e => simp [try_vectorize_filter] at hv
  | bin bop el er =>
    cases el <;> cases er <;> simp [try_vectorize_filter] at hv
    case col.lit n l =>
      cases hcb : cmpOfBin bop with
      | none => rw [hcb] at hv; cases hv
      | some cop =>
        cases hvl : vscalarOfLit l with
        | none => rw [hcb, hvl] at hv; cases hv
        | some v =>
          rw [hcb, hvl] at hv
          injection hv with hv
          exact Or.inl ⟨bop, n, l, cop, v, rfl, hcb, hvl, hv.symm⟩
    case lit.col l n =>
      cases hcb : cmpOfBin bop with
      | none => rw [hcb] at hv; cases hv
      | some cop =>
        cases hvl : vscalarOfLit l with
        | none => rw [hcb, hvl] at hv; cases hv
        | some v =>
          rw [hcb, hvl] at hv
          injection hv with hv
          exact Or.inr ⟨bop, n, l, cop, v, rfl, hcb, hvl, hv.symm⟩

/-! ## Row-count invariants -/

theorem gather_sizesOk (t : Table) (rows : List Nat) : (t.gather rows).sizesOk := by
  intro c hc
  simp only [Table.gather, List.mem_map] at hc
  obtain ⟨c0, _, rfl⟩ := hc
  cases c0.data <;> simp [ColumnData.gatherRows, ColumnData.size, Table.gather]

theorem checkWidths_ok (w : Nat) (i : Nat) (rows : List (List String)) (u : Unit)
    (h : checkWidths w i rows = .ok u) : ∀ r ∈ rows, r.length = w := by
  induction rows generalizing i with
  | nil => simp
  | cons row rest ih =>
    simp only [checkWidths] at h
    by_cases hw : row.length = w
    · rw [if_neg (by simpa using hw)] at h
      intro r hr
      rcases List.mem_cons.mp hr with rfl | hr2
      · exact hw
      · exact ih (i + 1) h r hr2
    · rw [if_pos (by simpa using hw)] at h
      cases h

theorem append_value_ok (c : Column) (f : String) (c2 : Column)
    (h : append_value c f = .ok c2) :
    c2.name = c.name ∧ c2.type = c.type ∧ c2.data.size = c.data.size + 1 := by
  unfold append_value at h
  split at h <;>
    split at h <;>
    first
      | (injection h with h
         subst h
         simp_all [ColumnData.size])
      | injection h
      | (split at h <;>
          first
            | (injection h with h
               subst h
               simp_all [ColumnData.size])
            | injection h)

theorem appendRowVals_ok (cols : List Column) (fields : List String) (cols2 : List Column)
    (n : Nat) (hw : fields.length = cols.length) (hs : ∀ c ∈ cols, c.data.size = n)
    (h : appendRowVals cols fields = .ok cols2) :
    cols2.length = cols.length ∧ ∀ c ∈ cols2, c.data.size = n + 1 := by
  induction cols generalizing fields cols2 with
  | nil =>
    cases fields with
    | nil =>
      injection h with h
      subst h
      simp
    | cons f fs => simp at hw
  | cons c cs ih =>
    cases fields with
    | nil => simp at hw
    | cons f fs =>
      simp only [appendRowVals] at h
      cases ha : append_value c f with
      | error e => rw [ha] at h; cases h
      | ok c2 =>
        rw [ha] at h
        cases har : appendRowVals cs fs with
        | error e => rw [har] at h; cases h
        | ok cs2 =>
          rw [har] at h
          injection h with h
          subst h
          obtain ⟨-, -, hsz⟩ := append_value_ok c f c2 ha
          obtain ⟨hlen, hall⟩ := ih fs cs2 (by simpa using hw)
            (fun x hx => hs x (List.mem_cons_of_mem c hx)) har
          refine ⟨by simp [hlen], fun x hx => ?_⟩
          rcases List.mem_cons.mp hx with rfl | hx2
          · rw [hsz, hs c (by simp)]
          · exact hall x hx2

theorem readRows_ok (rows : List (List String)) (cols : List Column) (n : Nat) (t2 : Table)
    (hw : ∀ r ∈ rows, r.length = cols.length) (hs : ∀ c ∈ cols, c.data.size = n)
    (h : readRows cols n rows = .ok t2) : t2.sizesOk := by
  induction rows generalizing cols n with
  | nil =>
    injection h with h
    subst h
    exact hs
  | cons row rest ih =>
    simp only [readRows] at h
    cases har : appendRowVals cols row with
    | error e => rw [har] at h; cases h
    | ok cols2 =>
      rw [har] at h
      obtain ⟨hlen, hall⟩ :=
        appendRowVals_ok cols row cols2 n (hw row (by simp)) hs har
      exact ih cols2 (n + 1)
        (fun r hr => (hw r (List.mem_cons_of_mem row hr)).trans hlen.symm) hall h

theorem initColumns_length (headers : List String) (all_rows : List (List String)) :
    (initColumns headers all_rows).length = headers.length := by
  simp [initColumns]

theorem initColumns_sizes (headers : List String) (all_rows : List (List String)) :
    ∀ c ∈ initColumns headers all_rows, c.data.size = 0 := by
  intro c hc
  simp only [initColumns, List.mem_map, List.mem_range] at hc
  obtain ⟨i, -, rfl⟩ := hc
  cases h : infer_type (all_rows.map (fun r => r.getD i "")) <;>
    simp [h, emptyDataOf, ColumnData.size]

/-- The scan operator's output satisfies the length invariant. -/
theorem read_csv_sizesOk (lines : List String) (t : Table)
    (h : read_csv lines = .ok t) : t.sizesOk := by
  unfold read_csv at h
  cases lines with
  | nil => cases h
  | cons header rest =>
    simp only at h
    split at h
    · injection h with h
      subst h
      intro c hc
      simp only [List.mem_map] at hc
      obtain ⟨nm, -, rfl⟩ := hc
      rfl
    · cases hcw : checkWidths ((splitComma header).map trim).length 0
          ((rest.filter (fun l => l ≠ "")).map splitComma) with
      | error e => rw [hcw] at h; cases h
      | ok u =>
        rw [hcw] at h
        refine readRows_ok _ _ 0 t (fun r hr => ?_) (initColumns_sizes _ _) h
        rw [initColumns_length]
        exact checkWidths_ok _ 0 _ u hcw r hr

theorem projectCols_mem (t : Table) (names : List String) (cs : List Column)
    (h : projectCols t names = .ok cs) : ∀ c ∈ cs, c ∈ t.columns := by
  induction names generalizing cs with
  | nil =>
    injection h with h
    subst h
    simp
  | cons n rest ih =>
    simp only [projectCols] at h
    cases hc : t.get_column n with
    | none => rw [hc] at h; cases h
    | some c =>
      rw [hc] at h
      cases hr : projectCols t rest with
      | error e => rw [hr] at h; cases h
      | ok cs2 =>
        rw [hr] at h
        injection h with h
        subst h
        intro x hx
        rcases List.mem_cons.mp hx with rfl | hx2
        · exact List.mem_of_find?_eq_some hc
        · exact ih cs2 hr x hx2

theorem project_sizesOk (t : Table) (names : List String) (t2 : Table)
    (hsz : t.sizesOk) (h : Table.project t names = .ok t2) : t2.sizesOk := by
  unfold Table.project at h
  cases hp : projectCols t names with
  | error e => rw [hp] at h; cases h
  | ok cs =>
    rw [hp] at h
    injection h with h
    subst h
    intro c hc
    exact hsz c (projectCols_mem t names cs hp c hc)

/-! ## The claims -/

/-- C1 (amended): for every filter expression eligible for vectorization, IF
the referenced column exists in the table, its declared type matches its
storage variant, the literal's type is compatible with the column's declared
type (numeric literal with an `Int64`/`Double` column, string literal with a
`String` column), and every column's storage length equals `num_rows`, THEN
the `VectorizedFilter` operator produces exactly the result of the scalar
`Filter` operator running the bytecode compiled from the same expression:
the same columns, the same kept rows, in the same order.  (Unconditionally
the claim is false: see the counterexample, where the scalar filter succeeds
but the vectorized one raises a type-mismatch error.) -/
theorem vectorized_filter_equiv_scalar (t : Table) (e : Expr) (vop : VectorizedFilterOp)
    (c : Column)
    (hv : try_vectorize_filter e = some vop)
    (hc : t.get_column vop.column_name = some c)
    (htype : c.typeOk)
    (hcompat : scalarCompatible c.type vop.value = true)
    (hsz : t.sizesOk) :
    execute_vectorized_filter vop t = execute_filter (compile_expr e) t := by
  rcases try_vectorize_inv e vop hv with
    ⟨bop, n, l, cop, v, rfl, hcb, hvl, rfl⟩ | ⟨bop, n, l, cop, v, rfl, hcb, hvl, rfl⟩
  · exact filter_equiv_core t _ _ c hc htype hcompat hsz
      (fun r => rowKeep_forward t r n l bop cop c v hcb hvl hc htype hcompat)
  · exact filter_equiv_core t _ _ c hc htype hcompat hsz
      (fun r => rowKeep_reversed t r n l bop cop c v hcb hvl hc htype hcompat)

/-- C1 counterexample: `s == 5` is eligible for vectorization, and on a
one-row table whose `STRING` column `s` holds a null, the scalar filter
succeeds (empty result: the null comparison collapses to false) while the
vectorized filter raises the STRING type-mismatch runtime error — so the two
operators do not produce equal results for every eligible expression. -/
theorem vectorized_filter_equiv_scalar_counterexample :
    try_vectorize_filter (.bin .eq (.col "s") (.lit (.int 5))) =
      some ⟨"s", .eq, .int 5⟩ ∧
    execute_filter (compile_expr (.bin .eq (.col "s") (.lit (.int 5))))
      ⟨[⟨"s", .string, .strings [none]⟩], 1⟩ =
        .ok ⟨[⟨"s", .string, .strings []⟩], 0⟩ ∧
    execute_vectorized_filter ⟨"s", .eq, .int 5⟩ ⟨[⟨"s", .string, .strings [none]⟩], 1⟩ =
      .error (.runtime "Type mismatch: column is STRING but value is not") :=
  ⟨by decide, by decide, by decide⟩

/-- C1 witness: the amended equivalence at a concrete table (`age > 30` over
an `Int64` column holding 35, null, 28). -/
theorem vectorized_filter_equiv_scalar_witness :
    execute_vectorized_filter ⟨"age", .gt, .int 30⟩
        ⟨[⟨"age", .int64, .int64s [some 35, none, some 28]⟩], 3⟩ =
      execute_filter (compile_expr (.bin .gt (.col "age") (.lit (.int 30))))
        ⟨[⟨"age", .int64, .int64s [some 35, none, some 28]⟩], 3⟩ :=
  vectorized_filter_equiv_scalar
    ⟨[⟨"age", .int64, .int64s [some 35, none, some 28]⟩], 3⟩
    (.bin .gt (.col "age") (.lit (.int 30)))
    ⟨"age", .gt, .int 30⟩
    ⟨"age", .int64, .int64s [some 35, none, some 28]⟩
    (by decide) (by decide) (by decide) (by decide) (by decide)

/-- C2 counterexample: on a one-row table whose `age` cell is null, filtering
with `not (age > 30)` KEEPS the row — the output table still contains it (the
output equals the input) — contradicting the claim that the row is discarded:
the null comparison collapses to `Bool(false)` (not to null), and
`NOT false = true`. -/
theorem null_not_filter_counterexample :
    execute_filter
        (compile_expr (.un .not (.bin .gt (.col "age") (.lit (.int 30)))))
        ⟨[⟨"age", .int64, .int64s [none]⟩], 1⟩ =
      .ok ⟨[⟨"age", .int64, .int64s [none]⟩], 1⟩ := by decide

/-- C2 (amended): for every table and row whose `age` cell is null, the
scalar filter's per-row decision for the predicate `not (age > 30)` is KEEP:
`age > 30` evaluates to `Bool(false)` on the null (comparisons collapse null
to false) and `NOT` then yields true. -/
theorem null_not_filter_keeps (t : Table) (r : Nat) (c : Column)
    (hc : t.get_column "age" = some c) (hnull : c.data.cell r = .null) :
    rowKeep t (compile_expr (.un .not (.bin .gt (.col "age") (.lit (.int 30))))) r =
      .ok true := by
  unfold rowKeep
  rw [eval_compiled]
  simp [evalExprA, loadColumn, hc, hnull, litValue, applyBinOp, applyCmp, Value.isNull,
    applyUnOp, applyNot, keepSignal]

/-- C2 witness: the amended claim at a concrete one-row table. -/
theorem null_not_filter_keeps_witness :
    rowKeep ⟨[⟨"age", .int64, .int64s [none]⟩], 1⟩
        (compile_expr (.un .not (.bin .gt (.col "age") (.lit (.int 30))))) 0 = .ok true :=
  null_not_filter_keeps ⟨[⟨"age", .int64, .int64s [none]⟩], 1⟩ 0
    ⟨"age", .int64, .int64s [none]⟩ (by decide) (by decide)

/-- C3 (the code's actual behaviour at the failing input): tokenizing the
source `"="` — a lexical error (a bare `=`) — does NOT fail the pipeline; the
error token is silently dropped and the token stream is just the end-of-file
token, with no error token surfaced to the parser, contradicting the
specified behaviour of failing with the offending line and column. -/
theorem lexer_silently_drops_error :
    tokenize "=" = [⟨.end_of_file, "", 1, 2, false, 0, 0⟩] ∧
    ∀ tk ∈ tokenize "=", tk.type ≠ TokenType.error_tok :=
  ⟨by decide, by decide⟩

/-- C4 (the code's actual behaviour at the failing input): for the column
values `123` then `abc`, the repository's `infer_type` decides `Int64` from
the FIRST non-empty value alone, and the read then FAILS on `abc`, while the
specified all-values scan would infer `String` and succeed. -/
theorem infer_type_uses_first_value_only :
    infer_type ["123", "abc"] = ColumnType.int64 ∧
    infer_type_spec ["123", "abc"] = ColumnType.string ∧
    read_csv ["n", "123", "abc"] =
      .error (.runtime "Failed to parse value \x27abc\x27 for column n") :=
  ⟨by decide, by decide, by decide⟩

/-- C5: for every expression tree `e`, executing `compile(e)` from an empty
stack never pops an empty stack (the run never signals the distinguished
underflow failure), and whenever it completes without a runtime error the
stack holds exactly one value — so the `invalid stack state` error branch of
`eval_expr` is unreachable for compiler-produced bytecode. -/
theorem compiled_bytecode_stack_balance (t : Table) (row : Nat) (e : Expr) :
    evalInstrs t row (compile_expr e) [] ≠ .error .underflow ∧
    ∀ st, evalInstrs t row (compile_expr e) [] = .ok st → st.length = 1 := by
  constructor
  · rw [compile_simulates]
    cases h : evalExprA t row e with
    | error err =>
      intro hc
      injection hc with h2
      exact evalExprA_ne_underflow t row e (h2 ▸ h)
    | ok v => simp
  · intro st hst
    rw [compile_simulates] at hst
    cases h : evalExprA t row e with
    | error err =>
      simp only [h] at hst
      cases hst
    | ok v =>
      simp only [h] at hst
      injection hst with h2
      rw [← h2]
      rfl

/-- C5 witness: the balance statement at a concrete expression (`5`). -/
theorem compiled_bytecode_stack_balance_witness :
    evalInstrs ⟨[], 0⟩ 0 (compile_expr (.lit (.int 5))) [] ≠ .error .underflow ∧
    [Value.int 5].length = 1 :=
  ⟨(compiled_bytecode_stack_balance ⟨[], 0⟩ 0 (.lit (.int 5))).1,
   (compiled_bytecode_stack_balance ⟨[], 0⟩ 0 (.lit (.int 5))).2 [Value.int 5] (by decide)⟩

/-- C6: the null-propagation rules: for every arithmetic opcode a null
operand gives null (`NEG` included), for every comparison opcode a null
operand gives `Bool(false)`, and `NOT` on null gives `Bool(false)`. -/
theorem null_propagation_semantics (aop : ArithOp) (cop : CmpOp) (a b : Value) :
    ((a.isNull || b.isNull) = true →
      applyArith aop a b = .ok .null ∧ applyCmp cop a b = .ok (.bool false)) ∧
    applyNeg .null = .ok .null ∧
    applyNot .null = .ok (.bool false) := by
  refine ⟨fun h => ⟨?_, ?_⟩, rfl, rfl⟩
  · simp [applyArith, h]
  · simp [applyCmp, h]

/-- C6 witness: null propagation at concrete operands. -/
theorem null_propagation_semantics_witness :
    applyArith .add .null (.int 1) = .ok .null ∧
    applyCmp .eq .null (.int 1) = .ok (.bool false) :=
  (null_propagation_semantics .add .eq .null (.int 1)).1 (by decide)

/-- C7: `DIV` semantics: a zero divisor between non-null numerics raises the
`Division by zero` runtime error in either width (including the promoted
mixes); a null operand gives null with no error; and the `Int64`/`Int64`
quotient with a nonzero divisor is `Int.tdiv`, truncating division — the
toward-zero behaviour being characterized by the two sign identities. -/
theorem div_semantics (x y : Int) (p : F64) (a b : Value) :
    applyArith .div (.int x) (.int 0) = .error (.runtime "Division by zero") ∧
    applyArith .div (.double p) (.double 0) = .error (.runtime "Division by zero") ∧
    applyArith .div (.int x) (.double 0) = .error (.runtime "Division by zero") ∧
    applyArith .div (.double p) (.int 0) = .error (.runtime "Division by zero") ∧
    ((a.isNull || b.isNull) = true → applyArith .div a b = .ok .null) ∧
    (y ≠ 0 → applyArith .div (.int x) (.int y) = .ok (.int (Int.tdiv x y))) ∧
    Int.tdiv (-x) y = -Int.tdiv x y ∧ Int.tdiv x (-y) = -Int.tdiv x y := by
  refine ⟨?_, ?_, ?_, ?_, fun h => by simp [applyArith, h], fun hy => ?_,
    Int.neg_tdiv x y, Int.tdiv_neg x y⟩
  · simp [applyArith, Value.isNull]
  · simp [applyArith, Value.isNull]
  · simp [applyArith, Value.isNull]
  · simp [applyArith, Value.isNull]
  · simp [applyArith, Value.isNull, hy, intArith]

/-- C7 witness: division-by-zero, null propagation and truncation toward
zero at concrete operands (`7 / -2 = -3`). -/
theorem div_semantics_witness :
    applyArith .div (.int 7) (.int 0) = .error (.runtime "Division by zero") ∧
    applyArith .div .null (.int 0) = .ok .null ∧
    applyArith .div (.int 7) (.int (-2)) = .ok (.int (-3)) := by
  refine ⟨(div_semantics 7 0 0 .null (.int 0)).1,
    (div_semantics 7 0 0 .null (.int 0)).2.2.2.2.1 (by decide),
    ?_⟩
  have h := (div_semantics 7 (-2) 0 .null (.int 0)).2.2.2.2.2.1 (by decide)
  simpa using h

/-- C8: the keep/discard interpretation of a filter predicate's final value:
null discards, a bool is used directly, an `Int64` discards iff zero, and a
double or a string raises the `Filter predicate must return boolean` runtime
error. -/
theorem filter_predicate_signal (b : Bool) (i : Int) (q : F64) (s : String) :
    keepSignal .null = .ok false ∧
    keepSignal (.bool b) = .ok b ∧
    keepSignal (.int i) = .ok (decide (i ≠ 0)) ∧
    keepSignal (.double q) = .error (.runtime "Filter predicate must return boolean") ∧
    keepSignal (.str s) = .error (.runtime "Filter predicate must return boolean") :=
  ⟨rfl, rfl, rfl, rfl, rfl⟩

/-- C9: after each physical operator — Scan (the CSV read), scalar Filter,
VectorizedFilter, Project — every column's storage length equals the result
table's `num_rows` (for the three table-to-table operators, given that the
input table satisfied the invariant; the scalar filter needs no hypothesis). -/
theorem operators_preserve_row_count (lines : List String) (t t1 t2 t3 t4 : Table)
    (p : IRExpr) (vop : VectorizedFilterOp) (names : List String) :
    (read_csv lines = .ok t1 → t1.sizesOk) ∧
    (execute_filter p t = .ok t2 → t2.sizesOk) ∧
    (t.sizesOk → execute_vectorized_filter vop t = .ok t3 → t3.sizesOk) ∧
    (t.sizesOk → Table.project t names = .ok t4 → t4.sizesOk) := by
  refine ⟨read_csv_sizesOk lines t1, fun h => ?_, fun hs h => ?_,
    fun hs h => project_sizesOk t names t4 hs h⟩
  · rw [execute_filter_ok p t t2 h]
    exact gather_sizesOk t _
  · rw [execute_vectorized_filter_ok vop t t3 hs h]
    exact gather_sizesOk t _

/-- C9 witness: the invariant after each operator at concrete inputs. -/
theorem operators_preserve_row_count_witness :
    Table.sizesOk ⟨[⟨"a", .int64, .int64s [some 1, some 7]⟩], 2⟩ ∧
    Table.sizesOk ⟨[⟨"a", .int64, .int64s [some 7]⟩], 1⟩ :=
  ⟨(operators_preserve_row_count ["a", "1", "7"] ⟨[], 0⟩
      ⟨[⟨"a", .int64, .int64s [some 1, some 7]⟩], 2⟩ ⟨[], 0⟩ ⟨[], 0⟩ ⟨[], 0⟩
      [] ⟨"a", .eq, .int 0⟩ []).1 (by decide),
   (operators_preserve_row_count []
      ⟨[⟨"a", .int64, .int64s [some 1, some 7]⟩], 2⟩ ⟨[], 0⟩
      ⟨[⟨"a", .int64, .int64s [some 7]⟩], 1⟩ ⟨[], 0⟩ ⟨[], 0⟩
      (compile_expr (.bin .gt (.col "a") (.lit (.int 3)))) ⟨"a", .eq, .int 0⟩ []).2.1
      (by decide)⟩

/-- C10: on success, both filter operators return exactly the subsequence of
input rows passing their predicate, in input order, with row content
(including nulls) copied unchanged column by column: the result is the
`gather` of the kept row indices (the vectorized half under the row-count
invariant, which every pipeline table satisfies by C9). -/
theorem filter_output_is_kept_subsequence (t : Table) (p : IRExpr)
    (vop : VectorizedFilterOp) (t1 t2 : Table) :
    (execute_filter p t = .ok t1 →
      t1 = t.gather ((List.range t.num_rows).filter (rowKeepB t p))) ∧
    (t.sizesOk → execute_vectorized_filter vop t = .ok t2 →
      t2 = t.gather ((List.range t.num_rows).filter (vecPassB t vop))) :=
  ⟨fun h => execute_filter_ok p t t1 h,
   fun hs h => execute_vectorized_filter_ok vop t t2 hs h⟩

/-- C10 witness: the characterization at a concrete table and predicate for
both operators. -/
theorem filter_output_is_kept_subsequence_witness :
    (⟨[⟨"age", .int64, .int64s [some 35]⟩], 1⟩ : Table) =
      Table.gather ⟨[⟨"age", .int64, .int64s [some 35, none, some 28]⟩], 3⟩
        ((List.range 3).filter
          (rowKeepB ⟨[⟨"age", .int64, .int64s [some 35, none, some 28]⟩], 3⟩
            (compile_expr (.bin .gt (.col "age") (.lit (.int 30)))))) ∧
    (⟨[⟨"age", .int64, .int64s [some 35]⟩], 1⟩ : Table) =
      Table.gather ⟨[⟨"age", .int64, .int64s [some 35, none, some 28]⟩], 3⟩
        ((List.range 3).filter
          (vecPassB ⟨[⟨"age", .int64, .int64s [some 35, none, some 28]⟩], 3⟩
            ⟨"age", .gt, .int 30⟩)) :=
  ⟨(filter_output_is_kept_subsequence
      ⟨[⟨"age", .int64, .int64s [some 35, none, some 28]⟩], 3⟩
      (compile_expr (.bin .gt (.col "age") (.lit (.int 30))))
      ⟨"age", .gt, .int 30⟩
      ⟨[⟨"age", .int64, .int64s [some 35]⟩], 1⟩
      ⟨[⟨"age", .int64, .int64s [some 35]⟩], 1⟩).1 (by decide),
   (filter_output_is_kept_subsequence
      ⟨[⟨"age", .int64, .int64s [some 35, none, some 28]⟩], 3⟩
      (compile_expr (.bin .gt (.col "age") (.lit (.int 30))))
      ⟨"age", .gt, .int 30⟩
      ⟨[⟨"age", .int64, .int64s [some 35]⟩], 1⟩
      ⟨[⟨"age", .int64, .int64s [some 35]⟩], 1⟩).2 (by decide) (by decide)⟩

end Joy
